import Mathlib

/-!
Verification of the persistence core of a knowledge-graph store
(`OptimizedSQLiteManager`): entities and relations kept in two SQL
tables, with batch create/mutate/delete operations and substring
search.  The embedding models the SQLite connection as a pair of
stores (the last committed state and the state visible on the open
connection), each operation as a pure state transformer, Python's
`','.join` / `.split(',')` as list functions, and SQLite's `LIKE`
operator (ASCII-case-insensitive, with `%` and `_` wildcards) as a
recursive matcher.
-/

set_option maxHeartbeats 1000000

namespace MemoryMCP

/-- A row of the `entities` table: `name` is the primary key and
`observations` is the comma-delimited stored form of the observation
list. -/
structure EntityRow where
  name : String
  entity_type : String
  observations : String
deriving DecidableEq

/-- A row of the `relations` table; the whole triple is the primary
key.  `from_` mirrors the Python attribute of the same name. -/
structure Rel where
  from_ : String
  «to» : String
  relationType : String
deriving DecidableEq

/-- The dictionary form of an entity as it crosses the API boundary
(`Entity.from_dict` / `Entity.to_dict`): observations as a list. -/
structure EntityRec where
  name : String
  entityType : String
  observations : List String
deriving DecidableEq

/-- The contents of the two tables. -/
structure Store where
  entities : List EntityRow
  relations : List Rel
deriving DecidableEq

/-- The state of the single SQLite connection: the durably committed
store, and the store as seen on the connection (which includes any
uncommitted writes of an open transaction).  `conn.commit()` copies
`current` into `committed`; `conn.rollback()` copies `committed` back
into `current`. -/
structure DBState where
  committed : Store
  current : Store
deriving DecidableEq

/-- The errors the manager raises. -/
inductive Err where
  | alreadyExists (name : String)
  | notFound (name : String)
  | valueError (msg : String)
deriving DecidableEq

deriving instance DecidableEq for Except

/-- One input item of `add_observations`. -/
structure ObsItem where
  entityName : String
  contents : List String
deriving DecidableEq

/-- The pair of lists returned by the read/search operations. -/
structure GraphResult where
  entities : List EntityRec
  relations : List Rel
deriving DecidableEq

/-! ### Delimited observation storage

Python's `','.join(xs)` and `s.split(',')`, on character lists. -/

/-- `s.split(',')` on character lists: `splitRaw [] = [[]]`, matching
Python where `''.split(',') == ['']`. -/
def splitRaw : List Char → List (List Char)
  | [] => [[]]
  | c :: s =>
    if c = ',' then [] :: splitRaw s
    else (c :: (splitRaw s).headD []) :: (splitRaw s).tail

/-- `','.join(xss)` on character lists. -/
def joinRaw : List (List Char) → List Char
  | [] => []
  | [x] => x
  | x :: y :: ys => x ++ ',' :: joinRaw (y :: ys)

/-- The guarded read used throughout the code:
`row['observations'].split(',') if row['observations'] else []`. -/
def splitObs (s : String) : List String :=
  if s = "" then [] else (splitRaw s.data).map String.mk

/-- `','.join(xs)` on strings, the stored form of an observation list. -/
def joinObs (xs : List String) : String :=
  String.mk (joinRaw (xs.map String.data))

/-- An observation list is *clean* when every element is nonempty and
delimiter-free; the spec imposes this as a structural constraint on
observation content. -/
def CleanObs (xs : List String) : Prop :=
  ∀ o ∈ xs, o ≠ "" ∧ ',' ∉ o.data

instance (xs : List String) : Decidable (CleanObs xs) := by
  unfold CleanObs; infer_instance

/-! ### SQLite `LIKE`

SQLite's default `LIKE`: `%` matches any character sequence, `_` any
single character, and ordinary characters compare after ASCII case
folding (the default `LIKE` is case-insensitive for the ASCII range). -/

/-- ASCII case folding as SQLite's default `LIKE` applies it. -/
def foldChar (c : Char) : Char :=
  if 'A' ≤ c ∧ c ≤ 'Z' then Char.ofNat (c.toNat + 32) else c

/-- SQLite `LIKE`: does pattern `p` match the whole string `s`? -/
def sqlLike : List Char → List Char → Bool
  | [], s => s.isEmpty
  | a :: p, s =>
    if a = '%' then s.tails.any (fun t => sqlLike p t)
    else
      match s with
      | [] => false
      | c :: s' =>
        if a = '_' then sqlLike p s'
        else (foldChar a == foldChar c) && sqlLike p s'

/-- Does `q` occur at the start of `s`, comparing characters through
`f`? -/
def matchPref (f : Char → Char) : List Char → List Char → Bool
  | [], _ => true
  | _ :: _, [] => false
  | a :: q, c :: s => (f a == f c) && matchPref f q s

/-- Does `q` occur contiguously anywhere in `s`, comparing characters
through `f`? -/
def containsWith (f : Char → Char) (q : List Char) : List Char → Bool
  | [] => matchPref f q []
  | c :: s => matchPref f q (c :: s) || containsWith f q s

/-- ASCII-case-insensitive substring containment. -/
def containsCI (q s : String) : Bool := containsWith foldChar q.data s.data

/-- Spec-words definition: case-sensitive literal substring
containment, as the spec's default reading of `search_nodes` matching;
kept for comparison with the code's `LIKE`-based matching. -/
def specContainsCS (q s : String) : Bool := containsWith id q.data s.data

/-- The `LIKE '%' || query || '%'` test the search path performs. -/
def likeMatch (q s : String) : Bool :=
  sqlLike ("%" ++ q ++ "%").data s.data

/-! ### The operations -/

/-- The names currently present in the `entities` table (what the
existence checks and the PRIMARY KEY constraint consult). -/
def entityNames (st : Store) : List String := st.entities.map EntityRow.name

/-- Reconstituting an `Entity` from its row, as every read path does:
`observations=row['observations'].split(',') if row['observations'] else []`. -/
def parseEntity (row : EntityRow) : EntityRec :=
  ⟨row.name, row.entity_type, splitObs row.observations⟩

/-- The loop of `create_entities`: each entity is INSERTed; a
uniqueness violation rolls the transaction back and raises
`EntityAlreadyExistsError`; reaching the end commits. -/
def createEntitiesGo (committed : Store) :
    Store → List EntityRec → List EntityRec → DBState × Except Err (List EntityRec)
  | cur, created, [] => (⟨cur, cur⟩, Except.ok created)
  | cur, created, e :: rest =>
    if e.name ∈ entityNames cur then
      (⟨committed, committed⟩, Except.error (Err.alreadyExists e.name))
    else
      createEntitiesGo committed
        ⟨cur.entities ++ [⟨e.name, e.entityType, joinObs e.observations⟩], cur.relations⟩
        (created ++ [e]) rest

def create_entities (st : DBState) (ents : List EntityRec) :
    DBState × Except Err (List EntityRec) :=
  createEntitiesGo st.committed st.current [] ents

/-- The loop of `create_relations`: both endpoints must exist
(`EntityNotFoundError` rolls the whole batch back), then
`INSERT ... ON CONFLICT DO NOTHING`; only rows actually inserted
(`cursor.rowcount > 0`) are appended to the returned list. -/
def createRelationsGo (committed : Store) :
    Store → List Rel → List Rel → DBState × Except Err (List Rel)
  | cur, created, [] => (⟨cur, cur⟩, Except.ok created)
  | cur, created, r :: rest =>
    if r.from_ ∉ entityNames cur then
      (⟨committed, committed⟩, Except.error (Err.notFound r.from_))
    else if r.«to» ∉ entityNames cur then
      (⟨committed, committed⟩, Except.error (Err.notFound r.«to»))
    else if r ∈ cur.relations then
      createRelationsGo committed cur created rest
    else
      createRelationsGo committed ⟨cur.entities, cur.relations ++ [r]⟩
        (created ++ [r]) rest

def create_relations (st : DBState) (relations_data : List Rel) :
    DBState × Except Err (List Rel) :=
  createRelationsGo st.committed st.current [] relations_data

/-- `read_graph` reads on the connection, so it sees the current
(possibly uncommitted) store. -/
def read_graph (st : DBState) : GraphResult :=
  ⟨st.current.entities.map parseEntity, st.current.relations⟩

/-- `SELECT observations FROM entities WHERE name = ?` followed by
`fetchone()`. -/
def findEntity (st : Store) (n : String) : Option EntityRow :=
  st.entities.find? (fun row => row.name == n)

/-- `UPDATE entities SET observations = ? WHERE name = ?`. -/
def updateObservations (st : Store) (n : String) (obsField : String) : Store :=
  ⟨st.entities.map (fun row =>
      if row.name == n then ⟨row.name, row.entity_type, obsField⟩ else row),
   st.relations⟩

/-- Python dict assignment `d[k] = v`: overwrite an existing key's
value in place, else append the new pair. -/
def dictSet (d : List (String × List String)) (k : String) (v : List String) :
    List (String × List String) :=
  if d.any (fun p => p.1 == k) then
    d.map (fun p => if p.1 == k then (p.1, v) else p)
  else d ++ [(k, v)]

/-- The loop of `add_observations`: a missing entity raises
`EntityNotFoundError` with NO rollback (unlike its sibling
operations), so updates from earlier items stay pending on the
connection; reaching the end commits. -/
def addObservationsGo (committed : Store) :
    Store → List (String × List String) → List ObsItem →
    DBState × Except Err (List (String × List String))
  | cur, added, [] => (⟨cur, cur⟩, Except.ok added)
  | cur, added, it :: rest =>
    match findEntity cur it.entityName with
    | none => (⟨committed, cur⟩, Except.error (Err.notFound it.entityName))
    | some row =>
      addObservationsGo committed
        (updateObservations cur it.entityName
          (joinObs (splitObs row.observations ++ it.contents)))
        (dictSet added it.entityName it.contents) rest

def add_observations (st : DBState) (observations : List ObsItem) :
    DBState × Except Err (List (String × List String)) :=
  addObservationsGo st.committed st.current [] observations

/-- The loop of `delete_entities`: for each name, first DELETE the
relations touching it, then the entity row; missing names simply
match zero rows. -/
def deleteEntitiesGo : Store → List String → Store
  | cur, [] => cur
  | cur, n :: rest =>
    deleteEntitiesGo
      ⟨cur.entities.filter (fun e => decide (e.name ≠ n)),
       cur.relations.filter (fun r => decide (¬(r.from_ = n ∨ r.«to» = n)))⟩
      rest

def delete_entities (st : DBState) (entityNames_ : List String) : DBState :=
  ⟨deleteEntitiesGo st.current entityNames_, deleteEntitiesGo st.current entityNames_⟩

/-- `open_nodes`: entities whose name is IN the supplied list, plus
relations whose endpoints are both IN the supplied list. -/
def open_nodes (st : DBState) (names : List String) : GraphResult :=
  ⟨(st.current.entities.filter (fun e => decide (e.name ∈ names))).map parseEntity,
   st.current.relations.filter
     (fun r => decide (r.from_ ∈ names ∧ r.«to» ∈ names))⟩

/-- The entity rows the search query returns: each of the three
stored columns is compared against `LIKE '%' || query || '%'`. -/
def matchedEntities (st : Store) (query : String) : List EntityRow :=
  st.entities.filter (fun row =>
    likeMatch query row.name || likeMatch query row.entity_type ||
      likeMatch query row.observations)

/-- The name set the relation query of `search_nodes` selects against:
`SELECT name FROM entities WHERE name IN (matched names)` (an empty
`IN ()` list matches nothing in SQLite). -/
def searchSel (st : Store) (query : String) : List String :=
  (st.entities.filter
    (fun e => decide (e.name ∈ (matchedEntities st query).map EntityRow.name))).map
    EntityRow.name

/-- `search_nodes`: an empty query raises `ValueError`; otherwise
matched entities plus the relations whose endpoints are both IN the
matched name set. -/
def search_nodes (st : DBState) (query : String) : Except Err GraphResult :=
  if query = "" then Except.error (Err.valueError "Search query cannot be empty")
  else
    Except.ok
      ⟨(matchedEntities st.current query).map parseEntity,
       st.current.relations.filter
         (fun r => decide (r.from_ ∈ searchSel st.current query ∧
           r.«to» ∈ searchSel st.current query))⟩

/-- A one-entity database with no pending transaction, used as a
concrete instance below. -/
def obsLeakStart : DBState :=
  ⟨⟨[⟨"a", "t", ""⟩], []⟩, ⟨[⟨"a", "t", ""⟩], []⟩⟩

/-- A database whose single entity has a capitalized name, used to
exhibit the case-insensitivity of the search path. -/
def caseStore : DBState :=
  ⟨⟨[⟨"Alice", "person", "x"⟩], []⟩, ⟨[⟨"Alice", "person", "x"⟩], []⟩⟩

/-- A two-entity database with one relation and no pending
transaction, used as a concrete instance below. -/
def relStart : DBState :=
  ⟨⟨[⟨"a", "t", ""⟩, ⟨"b", "t", ""⟩], [⟨"a", "b", "r"⟩]⟩,
   ⟨[⟨"a", "t", ""⟩, ⟨"b", "t", ""⟩], [⟨"a", "b", "r"⟩]⟩⟩

/-! ### Library lemmas about the storage encoding -/

theorem splitRaw_ne_nil (s : List Char) : splitRaw s ≠ [] := by
  cases s with
  | nil => simp [splitRaw]
  | cons c s => simp only [splitRaw]; split <;> simp

theorem splitRaw_nocomma_append (x r : List Char) (hx : ',' ∉ x) :
    splitRaw (x ++ r) = (x ++ (splitRaw r).headD []) :: (splitRaw r).tail := by
  induction x with
  | nil =>
    simp only [List.nil_append]
    cases h : splitRaw r with
    | nil => exact absurd h (splitRaw_ne_nil r)
    | cons g gs => simp
  | cons c x ih =>
    have hc : c ≠ ',' := by
      intro h; exact hx (h ▸ List.mem_cons_self c x)
    have hx' : ',' ∉ x := fun h => hx (List.mem_cons_of_mem _ h)
    simp [splitRaw, hc, ih hx']

theorem splitRaw_joinRaw (xss : List (List Char))
    (h : ∀ x ∈ xss, ',' ∉ x) (hne : xss ≠ []) :
    splitRaw (joinRaw xss) = xss := by
  induction xss with
  | nil => exact absurd rfl hne
  | cons x xs ih =>
    cases xs with
    | nil =>
      have hx : ',' ∉ x := h x (List.mem_cons_self x [])
      have := splitRaw_nocomma_append x [] hx
      simpa [splitRaw, joinRaw] using this
    | cons y ys =>
      have hx : ',' ∉ x := h x (List.mem_cons_self _ _)
      have hrest : ∀ z ∈ y :: ys, ',' ∉ z := fun z hz =>
        h z (List.mem_cons_of_mem _ hz)
      have hj : joinRaw (x :: y :: ys) = x ++ ',' :: joinRaw (y :: ys) := rfl
      rw [hj, splitRaw_nocomma_append x _ hx]
      have hsplit : splitRaw (',' :: joinRaw (y :: ys))
          = [] :: splitRaw (joinRaw (y :: ys)) := by simp [splitRaw]
      rw [hsplit, ih hrest (by simp)]
      simp

theorem joinRaw_ne_nil (xss : List (List Char))
    (hne : xss ≠ []) (hx : ∀ x ∈ xss, x ≠ []) :
    joinRaw xss ≠ [] := by
  cases xss with
  | nil => exact absurd rfl hne
  | cons x xs =>
    cases xs with
    | nil =>
      simpa [joinRaw] using hx x (List.mem_cons_self _ _)
    | cons y ys =>
      have : joinRaw (x :: y :: ys) = x ++ ',' :: joinRaw (y :: ys) := rfl
      rw [this]
      cases x <;> simp

theorem string_mk_data (s : String) : String.mk s.data = s := rfl

theorem string_ne_empty_iff (s : String) : s ≠ "" ↔ s.data ≠ [] := by
  constructor
  · intro h hdata
    exact h (by cases s with | mk d => cases hdata; rfl)
  · intro h heq
    exact h (by cases heq; rfl)

/-- Round trip of the delimited storage: splitting the joined form of
a clean observation list recovers the list (including `[]` — the
empty stored field is read back as the empty sequence). -/
theorem splitObs_joinObs (xs : List String) (h : CleanObs xs) :
    splitObs (joinObs xs) = xs := by
  cases hxs : xs with
  | nil => simp [splitObs, joinObs, joinRaw]
  | cons x rest =>
    subst hxs
    have hne : joinObs (x :: rest) ≠ "" := by
      rw [string_ne_empty_iff]
      show joinRaw ((x :: rest).map String.data) ≠ []
      apply joinRaw_ne_nil
      · simp
      · intro d hd
        simp only [List.mem_map] at hd
        obtain ⟨o, ho, rfl⟩ := hd
        have := (h o ho).1
        rw [string_ne_empty_iff] at this
        exact this
    rw [splitObs, if_neg hne]
    show ((splitRaw (joinRaw ((x :: rest).map String.data))).map String.mk) = x :: rest
    rw [splitRaw_joinRaw]
    · have : ∀ l : List String, (l.map String.data).map String.mk = l := by
        intro l
        induction l with
        | nil => rfl
        | cons a l ih => simp only [List.map_cons, string_mk_data, ih]
      exact this (x :: rest)
    · intro d hd
      simp only [List.mem_map] at hd
      obtain ⟨o, ho, rfl⟩ := hd
      exact (h o ho).2
    · simp

/-! ### Library lemmas about `LIKE` -/

theorem sqlLike_pct_nil (s : List Char) :
    sqlLike ['%'] s = true := by
  induction s with
  | nil => rfl
  | cons c s ih => simp_all [sqlLike, List.tails]

theorem sqlLike_append_pct (q : List Char) (hp : '%' ∉ q) (hu : '_' ∉ q)
    (s : List Char) :
    sqlLike (q ++ ['%']) s = matchPref foldChar q s := by
  induction q generalizing s with
  | nil => simpa [matchPref] using sqlLike_pct_nil s
  | cons a q ih =>
    have ha1 : a ≠ '%' := fun h => hp (h ▸ List.mem_cons_self _ _)
    have ha2 : a ≠ '_' := fun h => hu (h ▸ List.mem_cons_self _ _)
    have hp' : '%' ∉ q := fun h => hp (List.mem_cons_of_mem _ h)
    have hu' : '_' ∉ q := fun h => hu (List.mem_cons_of_mem _ h)
    cases s with
    | nil => simp [sqlLike, matchPref, ha1]
    | cons c s => simp [sqlLike, matchPref, ha1, ha2, ih hp' hu']

theorem tails_any_matchPref (f : Char → Char) (q s : List Char) :
    s.tails.any (fun t => matchPref f q t) = containsWith f q s := by
  induction s with
  | nil => simp [containsWith, List.tails]
  | cons c s ih => simp [containsWith, List.tails_cons, ih]

theorem sqlLike_pct_sandwich (q : List Char) (hp : '%' ∉ q) (hu : '_' ∉ q)
    (s : List Char) :
    sqlLike ('%' :: (q ++ ['%'])) s = containsWith foldChar q s := by
  have h1 : sqlLike ('%' :: (q ++ ['%'])) s
      = s.tails.any (fun t => sqlLike (q ++ ['%']) t) := by
    simp [sqlLike]
  rw [h1]
  have h2 : ∀ t, sqlLike (q ++ ['%']) t = matchPref foldChar q t :=
    sqlLike_append_pct q hp hu
  simp only [h2]
  exact tails_any_matchPref foldChar q s

theorem likeMatch_eq_containsCI (q s : String)
    (hp : '%' ∉ q.data) (hu : '_' ∉ q.data) :
    likeMatch q s = containsCI q s := by
  have hdata : ("%" ++ q ++ "%").data = '%' :: (q.data ++ ['%']) := by
    have h1 : ("%" ++ q ++ "%").data = "%".data ++ q.data ++ "%".data := by
      simp [String.data_append]
    rw [h1]; rfl
  rw [likeMatch, hdata, sqlLike_pct_sandwich q.data hp hu s.data, containsCI]

/-! ### The claims -/

/-- C1: a query that matches no entity yields an empty entity list
and an empty relation list — the empty set of matched names is never
treated as matching all relations. -/
theorem c1_empty_search_relations (st : DBState) (q : String) (r : GraphResult)
    (hq : q ≠ "") (h : search_nodes st q = Except.ok r)
    (hent : r.entities = []) : r.relations = [] := by
  rw [search_nodes, if_neg hq] at h
  injection h with h
  subst h
  have hm : matchedEntities st.current q = [] := by
    have hmap : (matchedEntities st.current q).map parseEntity = [] := hent
    exact List.map_eq_nil_iff.mp hmap
  have hsel : searchSel st.current q = [] := by
    simp only [searchSel, hm]
    simp
  show st.current.relations.filter _ = []
  refine List.filter_eq_nil_iff.mpr ?_
  intro a _
  simp [hsel]

theorem c1_empty_search_relations_witness :
    (("zz" : String) ≠ "" ∧
      search_nodes obsLeakStart "zz" = Except.ok ⟨[], []⟩ ∧
      (⟨[], []⟩ : GraphResult).entities = []) ∧
    (⟨[], []⟩ : GraphResult).relations = [] :=
  ⟨⟨by decide, by decide, rfl⟩,
   c1_empty_search_relations obsLeakStart "zz" ⟨[], []⟩ (by decide) (by decide) rfl⟩

/-- C2: the code violates the claim that a failing `add_observations`
batch leaves the stored entity state unchanged.  Starting from a
committed one-entity store, the batch `[{a, ["x"]}, {b, ["y"]}]`
raises not-found for `b`, but — because `add_observations` has no
rollback, unlike its sibling operations — the append for `a` stays
pending on the connection: `read_graph` already shows it, and the
next committing operation (here an innocuous `add_observations`)
makes it durable. -/
theorem c2_add_observations_uncommitted_write_persists :
    add_observations obsLeakStart [⟨"a", ["x"]⟩, ⟨"b", ["y"]⟩]
        = (⟨⟨[⟨"a", "t", ""⟩], []⟩, ⟨[⟨"a", "t", "x"⟩], []⟩⟩,
           Except.error (Err.notFound "b")) ∧
    (read_graph obsLeakStart).entities = [⟨"a", "t", []⟩] ∧
    (read_graph (add_observations obsLeakStart [⟨"a", ["x"]⟩, ⟨"b", ["y"]⟩]).1).entities
        = [⟨"a", "t", ["x"]⟩] ∧
    (add_observations
        (add_observations obsLeakStart [⟨"a", ["x"]⟩, ⟨"b", ["y"]⟩]).1
        [⟨"a", []⟩]).1.committed.entities = [⟨"a", "t", "x"⟩] := by
  decide

/-- C3: `open_nodes(names)` returns exactly the entities whose name
is in `names`, and exactly the relations with BOTH endpoints in
`names`; a relation with only one endpoint in the list is never
returned. -/
theorem c3_open_nodes_exact (st : DBState) (names : List String) :
    (∀ e, e ∈ (open_nodes st names).entities ↔
        ∃ row, row ∈ st.current.entities ∧ row.name ∈ names ∧ parseEntity row = e) ∧
    (∀ r, r ∈ (open_nodes st names).relations ↔
        r ∈ st.current.relations ∧ r.from_ ∈ names ∧ r.«to» ∈ names) := by
  constructor
  · intro e
    simp [open_nodes, List.mem_map, List.mem_filter, and_assoc]
  · intro r
    simp [open_nodes, List.mem_filter]

/-- If the remaining batch contains a name that collides with the
accumulated table (or occurs twice in the batch), the
`create_entities` loop ends in a rolled-back state with an
already-exists error naming a colliding entity. -/
theorem createEntitiesGo_error (committed : Store) :
    ∀ (ents : List EntityRec) (cur : Store) (created : List EntityRec),
    (∃ n ∈ ents.map EntityRec.name,
        n ∈ entityNames cur ∨ 2 ≤ (ents.map EntityRec.name).count n) →
    ∃ n, createEntitiesGo committed cur created ents
        = (⟨committed, committed⟩, Except.error (Err.alreadyExists n)) ∧
      n ∈ ents.map EntityRec.name ∧
      (n ∈ entityNames cur ∨ 2 ≤ (ents.map EntityRec.name).count n) := by
  intro ents
  induction ents with
  | nil => intro cur created h; simp at h
  | cons e rest ih =>
    intro cur created h
    by_cases he : e.name ∈ entityNames cur
    · exact ⟨e.name, by simp [createEntitiesGo, he], by simp, Or.inl he⟩
    · have hstep : createEntitiesGo committed cur created (e :: rest)
          = createEntitiesGo committed
              ⟨cur.entities ++ [⟨e.name, e.entityType, joinObs e.observations⟩],
               cur.relations⟩
              (created ++ [e]) rest := by
        simp [createEntitiesGo, he]
      have hnames : entityNames
          (⟨cur.entities ++ [⟨e.name, e.entityType, joinObs e.observations⟩],
            cur.relations⟩ : Store) = entityNames cur ++ [e.name] := by
        simp [entityNames]
      have hoff' : ∃ n ∈ rest.map EntityRec.name,
          n ∈ entityNames cur ++ [e.name] ∨
            2 ≤ (rest.map EntityRec.name).count n := by
        obtain ⟨n, hn, hcase⟩ := h
        rcases List.mem_cons.mp hn with heq | hn'
        · -- the offending name is the head's name
          subst heq
          cases hcase with
          | inl hc => exact absurd hc he
          | inr hc =>
            have hcount : (rest.map EntityRec.name).count e.name + 1
                = ((e :: rest).map EntityRec.name).count e.name := by
              simp [List.count_cons]
            have h1 : 1 ≤ (rest.map EntityRec.name).count e.name := by omega
            have hmem : e.name ∈ rest.map EntityRec.name :=
              List.count_pos_iff.mp (by omega)
            exact ⟨e.name, hmem, Or.inl (by simp)⟩
        · cases hcase with
          | inl hc => exact ⟨n, hn', Or.inl (List.mem_append_left _ hc)⟩
          | inr hc =>
            by_cases hne : n = e.name
            · exact ⟨n, hn', Or.inl (by simp [hne])⟩
            · have : ((e :: rest).map EntityRec.name).count n
                  = (rest.map EntityRec.name).count n := by
                simp [List.count_cons, hne]
              exact ⟨n, hn', Or.inr (by omega)⟩
      obtain ⟨n, heq, hmem, hcase⟩ := ih _ _ (hnames ▸ hoff')
      refine ⟨n, hstep ▸ heq, List.mem_cons_of_mem _ hmem, ?_⟩
      rw [hnames] at hcase
      cases hcase with
      | inl hc =>
        rcases List.mem_append.mp hc with hc' | hc'
        · exact Or.inl hc'
        · -- n = e.name, and n also occurs in rest: counted twice in the batch
          have hne : n = e.name := by simpa using hc'
          have h1 : 1 ≤ (rest.map EntityRec.name).count n :=
            List.count_pos_iff.mpr hmem
          have h2 : ((e :: rest).map EntityRec.name).count n
              = (rest.map EntityRec.name).count n + 1 := by
            rw [hne, List.map_cons]
            exact List.count_cons_self _ _
          exact Or.inr (by omega)
      | inr hc =>
        have hle : (rest.map EntityRec.name).count n
            ≤ ((e :: rest).map EntityRec.name).count n := by
          simp only [List.map_cons, List.count_cons]
          split <;> omega
        exact Or.inr (by omega)

/-- With unique names, a present name is carried by exactly one row. -/
theorem countP_name_eq_one (s : Store) (n : String)
    (hnd : (entityNames s).Nodup) (hn : n ∈ entityNames s) :
    s.entities.countP (fun row => row.name == n) = 1 := by
  have h1 : (entityNames s).count n = 1 := List.count_eq_one_of_mem hnd hn
  have h2 : (entityNames s).count n
      = s.entities.countP (fun row => row.name == n) := by
    rw [entityNames, List.count, List.countP_map]
    rfl
  omega

/-- C4: a `create_entities` batch containing a name that already
exists (or a name duplicated within the batch) fails with an
already-exists error identifying an offending name, commits nothing
(the state is exactly the pre-call state), and — when the name was
already stored — the store still holds exactly one row with that
name. -/
theorem c4_create_entities_duplicate_aborts
    (st : DBState) (ents : List EntityRec)
    (hclean : st.current = st.committed)
    (hnd : (entityNames st.current).Nodup)
    (hoff : ∃ n ∈ ents.map EntityRec.name,
        n ∈ entityNames st.current ∨ 2 ≤ (ents.map EntityRec.name).count n) :
    ∃ n, create_entities st ents = (st, Except.error (Err.alreadyExists n)) ∧
      n ∈ ents.map EntityRec.name ∧
      (n ∈ entityNames st.current ∨ 2 ≤ (ents.map EntityRec.name).count n) ∧
      ∀ m ∈ entityNames st.current,
        (create_entities st ents).1.current.entities.countP
          (fun row => row.name == m) = 1 := by
  have hst : (⟨st.committed, st.committed⟩ : DBState) = st := by
    obtain ⟨c, k⟩ := st
    simp only at hclean
    rw [hclean]
  obtain ⟨n, heq, hmem, hcase⟩ :=
    createEntitiesGo_error st.committed ents st.current [] hoff
  rw [create_entities, heq, hst]
  exact ⟨n, rfl, hmem, hcase, fun m hm => countP_name_eq_one st.current m hnd hm⟩

theorem c4_create_entities_duplicate_aborts_witness :
    (obsLeakStart.current = obsLeakStart.committed ∧
      (entityNames obsLeakStart.current).Nodup ∧
      ∃ n ∈ ([⟨"a", "u", ["p"]⟩] : List EntityRec).map EntityRec.name,
        n ∈ entityNames obsLeakStart.current ∨
          2 ≤ (([⟨"a", "u", ["p"]⟩] : List EntityRec).map EntityRec.name).count n) ∧
    ∃ n, create_entities obsLeakStart [⟨"a", "u", ["p"]⟩]
        = (obsLeakStart, Except.error (Err.alreadyExists n)) ∧
      n ∈ ([⟨"a", "u", ["p"]⟩] : List EntityRec).map EntityRec.name ∧
      (n ∈ entityNames obsLeakStart.current ∨
        2 ≤ (([⟨"a", "u", ["p"]⟩] : List EntityRec).map EntityRec.name).count n) ∧
      ∀ m ∈ entityNames obsLeakStart.current,
        (create_entities obsLeakStart [⟨"a", "u", ["p"]⟩]).1.current.entities.countP
          (fun row => row.name == m) = 1 :=
  ⟨⟨rfl, by decide, by decide⟩,
   c4_create_entities_duplicate_aborts obsLeakStart [⟨"a", "u", ["p"]⟩]
     rfl (by decide) (by decide)⟩

/-- If the remaining batch contains a relation with a missing
endpoint, the `create_relations` loop ends in a rolled-back state
with a not-found error naming a missing endpoint. -/
theorem createRelationsGo_error (committed : Store) :
    ∀ (rels : List Rel) (cur : Store) (created : List Rel),
    (∃ r ∈ rels, r.from_ ∉ entityNames cur ∨ r.«to» ∉ entityNames cur) →
    ∃ n, createRelationsGo committed cur created rels
        = (⟨committed, committed⟩, Except.error (Err.notFound n)) ∧
      n ∉ entityNames cur ∧ (∃ r ∈ rels, n = r.from_ ∨ n = r.«to») := by
  intro rels
  induction rels with
  | nil => intro cur created h; simp at h
  | cons r rest ih =>
    intro cur created h
    by_cases hf : r.from_ ∈ entityNames cur
    · by_cases ht : r.«to» ∈ entityNames cur
      · have hoff' : ∃ x ∈ rest,
            x.from_ ∉ entityNames cur ∨ x.«to» ∉ entityNames cur := by
          obtain ⟨x, hx, hcase⟩ := h
          rcases List.mem_cons.mp hx with rfl | hx'
          · cases hcase with
            | inl hc => exact absurd hf hc
            | inr hc => exact absurd ht hc
          · exact ⟨x, hx', hcase⟩
        by_cases hr : r ∈ cur.relations
        · have hstep : createRelationsGo committed cur created (r :: rest)
              = createRelationsGo committed cur created rest := by
            simp [createRelationsGo, hf, ht, hr]
          obtain ⟨n, heq, hnotin, x, hx, hend⟩ := ih cur created hoff'
          exact ⟨n, hstep ▸ heq, hnotin, x, List.mem_cons_of_mem _ hx, hend⟩
        · have hstep : createRelationsGo committed cur created (r :: rest)
              = createRelationsGo committed
                  ⟨cur.entities, cur.relations ++ [r]⟩ (created ++ [r]) rest := by
            simp [createRelationsGo, hf, ht, hr]
          have hoff'' : ∃ x ∈ rest,
              x.from_ ∉ entityNames (⟨cur.entities, cur.relations ++ [r]⟩ : Store)
                ∨ x.«to» ∉ entityNames (⟨cur.entities, cur.relations ++ [r]⟩ : Store) :=
            hoff'
          obtain ⟨n, heq, hnotin, x, hx, hend⟩ := ih _ _ hoff''
          exact ⟨n, hstep ▸ heq, hnotin, x, List.mem_cons_of_mem _ hx, hend⟩
      · exact ⟨r.«to», by simp [createRelationsGo, hf, ht], ht,
          r, List.mem_cons_self _ _, Or.inr rfl⟩
    · exact ⟨r.from_, by simp [createRelationsGo, hf], hf,
        r, List.mem_cons_self _ _, Or.inl rfl⟩

/-- C5: a `create_relations` batch containing a relation whose
endpoint does not exist fails with a not-found error naming a missing
entity, and the whole batch is rolled back: the state is exactly the
pre-call state and no relation row from the batch is committed. -/
theorem c5_create_relations_missing_endpoint_aborts
    (st : DBState) (rels : List Rel)
    (hclean : st.current = st.committed)
    (hoff : ∃ r ∈ rels,
        r.from_ ∉ entityNames st.current ∨ r.«to» ∉ entityNames st.current) :
    ∃ n, create_relations st rels = (st, Except.error (Err.notFound n)) ∧
      n ∉ entityNames st.current ∧
      (∃ r ∈ rels, n = r.from_ ∨ n = r.«to») ∧
      (create_relations st rels).1.current.relations = st.current.relations ∧
      (create_relations st rels).1.committed.relations
        = st.committed.relations := by
  have hst : (⟨st.committed, st.committed⟩ : DBState) = st := by
    obtain ⟨c, k⟩ := st
    simp only at hclean
    rw [hclean]
  obtain ⟨n, heq, hnotin, hsrc⟩ :=
    createRelationsGo_error st.committed rels st.current [] hoff
  rw [create_relations, heq, hst]
  exact ⟨n, rfl, hnotin, hsrc, rfl, rfl⟩

theorem c5_create_relations_missing_endpoint_aborts_witness :
    (obsLeakStart.current = obsLeakStart.committed ∧
      ∃ r ∈ ([⟨"a", "b", "r"⟩] : List Rel),
        r.from_ ∉ entityNames obsLeakStart.current ∨
          r.«to» ∉ entityNames obsLeakStart.current) ∧
    ∃ n, create_relations obsLeakStart [⟨"a", "b", "r"⟩]
        = (obsLeakStart, Except.error (Err.notFound n)) ∧
      n ∉ entityNames obsLeakStart.current ∧
      (∃ r ∈ ([⟨"a", "b", "r"⟩] : List Rel), n = r.from_ ∨ n = r.«to») ∧
      (create_relations obsLeakStart [⟨"a", "b", "r"⟩]).1.current.relations
        = obsLeakStart.current.relations ∧
      (create_relations obsLeakStart [⟨"a", "b", "r"⟩]).1.committed.relations
        = obsLeakStart.committed.relations :=
  ⟨⟨rfl, by decide⟩,
   c5_create_relations_missing_endpoint_aborts obsLeakStart [⟨"a", "b", "r"⟩]
     rfl (by decide)⟩

/-- When every endpoint in the batch exists, the `create_relations`
loop commits, appending exactly the batch triples that were not
already stored (each once), and returns them. -/
theorem createRelationsGo_ok (committed : Store) :
    ∀ (rels : List Rel) (cur : Store) (created : List Rel),
    (∀ r ∈ rels, r.from_ ∈ entityNames cur ∧ r.«to» ∈ entityNames cur) →
    ∃ D, createRelationsGo committed cur created rels
        = (⟨⟨cur.entities, cur.relations ++ D⟩, ⟨cur.entities, cur.relations ++ D⟩⟩,
           Except.ok (created ++ D)) ∧
      (∀ x, x ∈ D ↔ x ∈ rels ∧ x ∉ cur.relations) ∧ D.Nodup := by
  intro rels
  induction rels with
  | nil =>
    intro cur created _
    refine ⟨[], ?_, by simp, List.nodup_nil⟩
    simp [createRelationsGo]
  | cons r rest ih =>
    intro cur created hex
    have hf := (hex r (List.mem_cons_self _ _)).1
    have ht := (hex r (List.mem_cons_self _ _)).2
    by_cases hr : r ∈ cur.relations
    · have hstep : createRelationsGo committed cur created (r :: rest)
          = createRelationsGo committed cur created rest := by
        simp [createRelationsGo, hf, ht, hr]
      obtain ⟨D, heq, hiff, hnd⟩ :=
        ih cur created (fun x hx => hex x (List.mem_cons_of_mem _ hx))
      refine ⟨D, hstep ▸ heq, ?_, hnd⟩
      intro x
      rw [hiff x]
      constructor
      · rintro ⟨h1, h2⟩
        exact ⟨List.mem_cons_of_mem _ h1, h2⟩
      · rintro ⟨h1, h2⟩
        rcases List.mem_cons.mp h1 with rfl | h1'
        · exact absurd hr h2
        · exact ⟨h1', h2⟩
    · have hstep : createRelationsGo committed cur created (r :: rest)
          = createRelationsGo committed ⟨cur.entities, cur.relations ++ [r]⟩
              (created ++ [r]) rest := by
        simp [createRelationsGo, hf, ht, hr]
      have hex' : ∀ x ∈ rest,
          x.from_ ∈ entityNames (⟨cur.entities, cur.relations ++ [r]⟩ : Store) ∧
            x.«to» ∈ entityNames (⟨cur.entities, cur.relations ++ [r]⟩ : Store) :=
        fun x hx => hex x (List.mem_cons_of_mem _ hx)
      obtain ⟨D, heq, hiff, hnd⟩ := ih _ _ hex'
      refine ⟨r :: D, ?_, ?_, ?_⟩
      · rw [hstep, heq]
        simp [List.append_assoc]
      · intro x
        constructor
        · intro hx
          rcases List.mem_cons.mp hx with rfl | hx'
          · exact ⟨List.mem_cons_self _ _, hr⟩
          · have hx2 := (hiff x).mp hx'
            exact ⟨List.mem_cons_of_mem _ hx2.1,
              fun hc => hx2.2 (List.mem_append_left _ hc)⟩
        · rintro ⟨h1, h2⟩
          rcases List.mem_cons.mp h1 with rfl | h1'
          · exact List.mem_cons_self _ _
          · by_cases hxr : x = r
            · subst hxr; exact List.mem_cons_self _ _
            · refine List.mem_cons_of_mem _ ((hiff x).mpr ⟨h1', ?_⟩)
              intro hc
              rcases List.mem_append.mp hc with hcl | hcr
              · exact h2 hcl
              · exact hxr (by simpa using hcr)
      · refine List.nodup_cons.mpr ⟨?_, hnd⟩
        intro hrD
        exact ((hiff r).mp hrD).2 (List.mem_append_right _ (by simp))

/-- C6: `create_relations` is idempotent on the relation triple.  With
all endpoints present, the call succeeds, the returned list contains
exactly the triples that were newly inserted (absent before the
call), every batch triple is stored in exactly one row afterwards,
and repeating the identical call returns an empty list and leaves the
state unchanged. -/
theorem c6_create_relations_idempotent
    (st : DBState) (rels : List Rel)
    (hex : ∀ r ∈ rels,
        r.from_ ∈ entityNames st.current ∧ r.«to» ∈ entityNames st.current)
    (hnd : st.current.relations.Nodup) :
    ∃ st1 created, create_relations st rels = (st1, Except.ok created) ∧
      (∀ x, x ∈ created ↔ x ∈ rels ∧ x ∉ st.current.relations) ∧
      (∀ r ∈ rels, st1.current.relations.count r = 1) ∧
      create_relations st1 rels = (st1, Except.ok []) := by
  obtain ⟨D, heq, hiff, hndD⟩ := createRelationsGo_ok st.committed rels st.current [] hex
  refine ⟨⟨⟨st.current.entities, st.current.relations ++ D⟩,
      ⟨st.current.entities, st.current.relations ++ D⟩⟩, D, heq, hiff, ?_, ?_⟩
  · intro r hrels
    show (st.current.relations ++ D).count r = 1
    rw [List.count_append]
    by_cases hmem : r ∈ st.current.relations
    · have h1 : st.current.relations.count r = 1 := List.count_eq_one_of_mem hnd hmem
      have h2 : D.count r = 0 := by
        rw [List.count_eq_zero]
        intro hD
        exact ((hiff r).mp hD).2 hmem
      omega
    · have h1 : st.current.relations.count r = 0 := List.count_eq_zero.mpr hmem
      have h2 : D.count r = 1 :=
        List.count_eq_one_of_mem hndD ((hiff r).mpr ⟨hrels, hmem⟩)
      omega
  · obtain ⟨D2, heq2, hiff2, _⟩ := createRelationsGo_ok
      (⟨st.current.entities, st.current.relations ++ D⟩ : Store) rels
      (⟨st.current.entities, st.current.relations ++ D⟩ : Store) [] hex
    have hD2 : D2 = [] := by
      rw [List.eq_nil_iff_forall_not_mem]
      intro x hx
      have hx2 := (hiff2 x).mp hx
      apply hx2.2
      show x ∈ st.current.relations ++ D
      by_cases hmem : x ∈ st.current.relations
      · exact List.mem_append_left _ hmem
      · exact List.mem_append_right _ ((hiff x).mpr ⟨hx2.1, hmem⟩)
    subst hD2
    show createRelationsGo
        (⟨st.current.entities, st.current.relations ++ D⟩ : Store)
        (⟨st.current.entities, st.current.relations ++ D⟩ : Store) [] rels = _
    rw [heq2]
    simp

theorem c6_create_relations_idempotent_witness :
    ((∀ r ∈ ([⟨"a", "b", "r"⟩, ⟨"b", "a", "s"⟩] : List Rel),
        r.from_ ∈ entityNames relStart.current ∧
          r.«to» ∈ entityNames relStart.current) ∧
      relStart.current.relations.Nodup) ∧
    ∃ st1 created,
      create_relations relStart [⟨"a", "b", "r"⟩, ⟨"b", "a", "s"⟩]
        = (st1, Except.ok created) ∧
      (∀ x, x ∈ created ↔
        x ∈ ([⟨"a", "b", "r"⟩, ⟨"b", "a", "s"⟩] : List Rel) ∧
          x ∉ relStart.current.relations) ∧
      (∀ r ∈ ([⟨"a", "b", "r"⟩, ⟨"b", "a", "s"⟩] : List Rel),
        st1.current.relations.count r = 1) ∧
      create_relations st1 [⟨"a", "b", "r"⟩, ⟨"b", "a", "s"⟩]
        = (st1, Except.ok []) :=
  ⟨⟨by decide, by decide⟩,
   c6_create_relations_idempotent relStart [⟨"a", "b", "r"⟩, ⟨"b", "a", "s"⟩]
     (by decide) (by decide)⟩

/-- C7: creating an entity with a clean observation list (nonempty,
delimiter-free elements — or the empty list) and reading it back via
`read_graph` yields the same list in the same order; moreover an
empty stored observations field is always reconstituted as the empty
sequence, never as `[""]`. -/
theorem c7_observations_roundtrip
    (st : DBState) (n t : String) (obs : List String)
    (hfresh : n ∉ entityNames st.current)
    (hobs : CleanObs obs) :
    ∃ st', create_entities st [⟨n, t, obs⟩] = (st', Except.ok [⟨n, t, obs⟩]) ∧
      (⟨n, t, obs⟩ : EntityRec) ∈ (read_graph st').entities ∧
      ∀ nm ty, parseEntity ⟨nm, ty, ""⟩ = ⟨nm, ty, []⟩ := by
  refine ⟨⟨⟨st.current.entities ++ [⟨n, t, joinObs obs⟩], st.current.relations⟩,
      ⟨st.current.entities ++ [⟨n, t, joinObs obs⟩], st.current.relations⟩⟩,
      ?_, ?_, ?_⟩
  · rw [create_entities]
    simp [createEntitiesGo, hfresh]
  · show (⟨n, t, obs⟩ : EntityRec)
        ∈ (st.current.entities ++ ([⟨n, t, joinObs obs⟩] : List EntityRow)).map
          parseEntity
    rw [List.map_append]
    apply List.mem_append_right
    simp [parseEntity, splitObs_joinObs obs hobs]
  · intro nm ty
    simp [parseEntity, splitObs]

theorem c7_observations_roundtrip_witness :
    ("e" ∉ entityNames obsLeakStart.current ∧ CleanObs ["a", "b"]) ∧
    ∃ st', create_entities obsLeakStart [⟨"e", "ty", ["a", "b"]⟩]
        = (st', Except.ok [⟨"e", "ty", ["a", "b"]⟩]) ∧
      (⟨"e", "ty", ["a", "b"]⟩ : EntityRec) ∈ (read_graph st').entities ∧
      ∀ nm ty, parseEntity ⟨nm, ty, ""⟩ = ⟨nm, ty, []⟩ :=
  ⟨⟨by decide, by decide⟩,
   c7_observations_roundtrip obsLeakStart "e" "ty" ["a", "b"]
     (by decide) (by decide)⟩

/-- An entity row survives the `delete_entities` loop exactly when its
name is not among the deleted names. -/
theorem deleteEntitiesGo_mem_entities :
    ∀ (names : List String) (cur : Store) (e : EntityRow),
    e ∈ (deleteEntitiesGo cur names).entities ↔
      e ∈ cur.entities ∧ e.name ∉ names := by
  intro names
  induction names with
  | nil => intro cur e; simp [deleteEntitiesGo]
  | cons n rest ih =>
    intro cur e
    have hstep : deleteEntitiesGo cur (n :: rest)
        = deleteEntitiesGo
            ⟨cur.entities.filter (fun x => decide (x.name ≠ n)),
             cur.relations.filter (fun r => decide (¬(r.from_ = n ∨ r.«to» = n)))⟩
            rest := rfl
    rw [hstep, ih]
    simp only [List.mem_filter, List.mem_cons, decide_eq_true_eq]
    tauto

/-- A relation row survives the `delete_entities` loop exactly when
neither endpoint is among the deleted names. -/
theorem deleteEntitiesGo_mem_relations :
    ∀ (names : List String) (cur : Store) (r : Rel),
    r ∈ (deleteEntitiesGo cur names).relations ↔
      r ∈ cur.relations ∧ r.from_ ∉ names ∧ r.«to» ∉ names := by
  intro names
  induction names with
  | nil => intro cur r; simp [deleteEntitiesGo]
  | cons n rest ih =>
    intro cur r
    have hstep : deleteEntitiesGo cur (n :: rest)
        = deleteEntitiesGo
            ⟨cur.entities.filter (fun x => decide (x.name ≠ n)),
             cur.relations.filter (fun x => decide (¬(x.from_ = n ∨ x.«to» = n)))⟩
            rest := rfl
    rw [hstep, ih]
    simp only [List.mem_filter, List.mem_cons, decide_eq_true_eq]
    tauto

/-- Deleting names that touch nothing leaves the store unchanged. -/
theorem deleteEntitiesGo_noop :
    ∀ (names : List String) (cur : Store),
    (∀ n ∈ names, (∀ e ∈ cur.entities, e.name ≠ n) ∧
      (∀ r ∈ cur.relations, r.from_ ≠ n ∧ r.«to» ≠ n)) →
    deleteEntitiesGo cur names = cur := by
  intro names
  induction names with
  | nil => intro cur _; rfl
  | cons n rest ih =>
    intro cur h
    have he : cur.entities.filter (fun x => decide (x.name ≠ n)) = cur.entities := by
      refine List.filter_eq_self.mpr ?_
      intro e he
      simpa using (h n (List.mem_cons_self _ _)).1 e he
    have hr : cur.relations.filter
        (fun x => decide (¬(x.from_ = n ∨ x.«to» = n))) = cur.relations := by
      refine List.filter_eq_self.mpr ?_
      intro r hrm
      have := (h n (List.mem_cons_self _ _)).2 r hrm
      simp [this.1, this.2]
    have hstep : deleteEntitiesGo cur (n :: rest)
        = deleteEntitiesGo
            ⟨cur.entities.filter (fun x => decide (x.name ≠ n)),
             cur.relations.filter (fun x => decide (¬(x.from_ = n ∨ x.«to» = n)))⟩
            rest := rfl
    rw [hstep, he, hr]
    exact ih cur (fun m hm => h m (List.mem_cons_of_mem _ hm))

/-- C8: after `delete_entities(names)`, `read_graph` lists neither
any deleted name nor any relation with a deleted endpoint; exactly the
untouched rows remain; the deletion commits; repeating it is a no-op
(idempotence); and deleting names that match nothing leaves the state
exactly unchanged. -/
theorem c8_delete_entities_cascade (st : DBState) (names : List String)
    (hclean : st.current = st.committed) :
    (∀ n ∈ names,
      (∀ e ∈ (read_graph (delete_entities st names)).entities, e.name ≠ n) ∧
      (∀ r ∈ (read_graph (delete_entities st names)).relations,
        r.from_ ≠ n ∧ r.«to» ≠ n)) ∧
    (∀ e, e ∈ (delete_entities st names).current.entities ↔
        e ∈ st.current.entities ∧ e.name ∉ names) ∧
    (∀ r, r ∈ (delete_entities st names).current.relations ↔
        r ∈ st.current.relations ∧ r.from_ ∉ names ∧ r.«to» ∉ names) ∧
    (delete_entities st names).committed = (delete_entities st names).current ∧
    delete_entities (delete_entities st names) names = delete_entities st names ∧
    ((∀ n ∈ names, n ∉ entityNames st.current ∧
        ∀ r ∈ st.current.relations, r.from_ ≠ n ∧ r.«to» ≠ n) →
      delete_entities st names = st) := by
  refine ⟨?_, ?_, ?_, rfl, ?_, ?_⟩
  · intro n hn
    constructor
    · intro e he
      show e.name ≠ n
      obtain ⟨row, hrow, rfl⟩ := List.mem_map.mp he
      have := (deleteEntitiesGo_mem_entities names st.current row).mp hrow
      intro hc
      exact this.2 (by rw [← hc] at hn; exact hn)
    · intro r hr
      have := (deleteEntitiesGo_mem_relations names st.current r).mp hr
      exact ⟨fun hc => this.2.1 (hc ▸ hn), fun hc => this.2.2 (hc ▸ hn)⟩
  · exact fun e => deleteEntitiesGo_mem_entities names st.current e
  · exact fun r => deleteEntitiesGo_mem_relations names st.current r
  · show (⟨deleteEntitiesGo (deleteEntitiesGo st.current names) names,
        deleteEntitiesGo (deleteEntitiesGo st.current names) names⟩ : DBState) = _
    have hfix : deleteEntitiesGo (deleteEntitiesGo st.current names) names
        = deleteEntitiesGo st.current names := by
      apply deleteEntitiesGo_noop
      intro n hn
      constructor
      · intro e he
        exact fun hc =>
          ((deleteEntitiesGo_mem_entities names st.current e).mp he).2 (hc ▸ hn)
      · intro r hr
        have := (deleteEntitiesGo_mem_relations names st.current r).mp hr
        exact ⟨fun hc => this.2.1 (hc ▸ hn), fun hc => this.2.2 (hc ▸ hn)⟩
    rw [hfix]
    rfl
  · intro h
    have hfix : deleteEntitiesGo st.current names = st.current := by
      apply deleteEntitiesGo_noop
      intro n hn
      refine ⟨?_, (h n hn).2⟩
      intro e he hc
      exact (h n hn).1 (hc ▸ List.mem_map_of_mem EntityRow.name he)
    show (⟨deleteEntitiesGo st.current names, deleteEntitiesGo st.current names⟩
        : DBState) = st
    rw [hfix]
    obtain ⟨c, k⟩ := st
    simp only at hclean
    rw [hclean]

theorem c8_delete_entities_cascade_witness :
    (relStart.current = relStart.committed) ∧
    ((∀ n ∈ ["a"],
      (∀ e ∈ (read_graph (delete_entities relStart ["a"])).entities, e.name ≠ n) ∧
      (∀ r ∈ (read_graph (delete_entities relStart ["a"])).relations,
        r.from_ ≠ n ∧ r.«to» ≠ n)) ∧
    (∀ e, e ∈ (delete_entities relStart ["a"]).current.entities ↔
        e ∈ relStart.current.entities ∧ e.name ∉ ["a"]) ∧
    (∀ r, r ∈ (delete_entities relStart ["a"]).current.relations ↔
        r ∈ relStart.current.relations ∧ r.from_ ∉ ["a"] ∧ r.«to» ∉ ["a"]) ∧
    (delete_entities relStart ["a"]).committed
      = (delete_entities relStart ["a"]).current ∧
    delete_entities (delete_entities relStart ["a"]) ["a"]
      = delete_entities relStart ["a"] ∧
    ((∀ n ∈ ["a"], n ∉ entityNames relStart.current ∧
        ∀ r ∈ relStart.current.relations, r.from_ ≠ n ∧ r.«to» ≠ n) →
      delete_entities relStart ["a"] = relStart)) :=
  ⟨rfl, c8_delete_entities_cascade relStart ["a"] rfl⟩

/-- C9 counterexample: matching is NOT case-sensitive substring
containment.  The store holds only `Alice`/`person`/`x`; none of the
three stored fields contains the query `alice` as a case-sensitive
substring, yet `search_nodes` returns the entity, because SQLite's
default `LIKE` compares ASCII case-insensitively. -/
theorem c9_case_sensitivity_counterexample :
    search_nodes caseStore "alice"
        = Except.ok ⟨[⟨"Alice", "person", ["x"]⟩], []⟩ ∧
    specContainsCS "alice" "Alice" = false ∧
    specContainsCS "alice" "person" = false ∧
    specContainsCS "alice" "x" = false := by
  decide

/-- C9 as amended: for a nonempty query without `LIKE` wildcards,
`search_nodes` matches exactly those entities whose name, type, or
delimited stored observations field contains the query as an
ASCII-case-insensitive substring. -/
theorem c9_search_matches_case_insensitive (st : DBState) (q : String)
    (hq : q ≠ "") (hp : '%' ∉ q.data) (hu : '_' ∉ q.data) :
    ∃ r, search_nodes st q = Except.ok r ∧
      r.entities = (st.current.entities.filter (fun row =>
          containsCI q row.name || containsCI q row.entity_type ||
            containsCI q row.observations)).map parseEntity := by
  rw [search_nodes, if_neg hq]
  refine ⟨_, rfl, ?_⟩
  show (matchedEntities st.current q).map parseEntity = _
  congr 1
  rw [matchedEntities]
  apply List.filter_congr
  intro row _
  rw [likeMatch_eq_containsCI q row.name hp hu,
    likeMatch_eq_containsCI q row.entity_type hp hu,
    likeMatch_eq_containsCI q row.observations hp hu]

theorem c9_search_matches_case_insensitive_witness :
    (("alice" : String) ≠ "" ∧ '%' ∉ "alice".data ∧ '_' ∉ "alice".data) ∧
    ∃ r, search_nodes caseStore "alice" = Except.ok r ∧
      r.entities = (caseStore.current.entities.filter (fun row =>
          containsCI "alice" row.name || containsCI "alice" row.entity_type ||
            containsCI "alice" row.observations)).map parseEntity :=
  ⟨⟨by decide, by decide, by decide⟩,
   c9_search_matches_case_insensitive caseStore "alice"
     (by decide) (by decide) (by decide)⟩

/-- One step of the `add_observations` loop when the entity is found:
append the contents to the parsed stored list, write the joined form
back, and record the contents in the result dict. -/
theorem addObservationsGo_cons_found (committed cur : Store)
    (added : List (String × List String)) (it : ObsItem) (rest : List ObsItem)
    (row : EntityRow) (h : findEntity cur it.entityName = some row) :
    addObservationsGo committed cur added (it :: rest)
      = addObservationsGo committed
          (updateObservations cur it.entityName
            (joinObs (splitObs row.observations ++ it.contents)))
          (dictSet added it.entityName it.contents) rest := by
  simp only [addObservationsGo, h]

/-- Looking up `n` after `UPDATE ... WHERE name = n` finds the same
row with the new observations field. -/
theorem find_update_list (l : List EntityRow) (n obsF : String) :
    (l.map (fun row =>
        if row.name == n then (⟨row.name, row.entity_type, obsF⟩ : EntityRow)
        else row)).find? (fun row => row.name == n)
      = (l.find? (fun row => row.name == n)).map
          (fun row => ⟨row.name, row.entity_type, obsF⟩) := by
  induction l with
  | nil => rfl
  | cons e l ih =>
    by_cases h : e.name == n
    · simp [List.find?, h]
    · simp only [List.map_cons, if_neg h]
      rw [List.find?_cons_of_neg _ (by simpa using h),
        List.find?_cons_of_neg _ (by simpa using h)]
      exact ih

theorem findEntity_updateObservations (cur : Store) (n obsF : String) :
    findEntity (updateObservations cur n obsF) n
      = (findEntity cur n).map
          (fun row => ⟨row.name, row.entity_type, obsF⟩) := by
  rw [findEntity, findEntity, updateObservations]
  exact find_update_list cur.entities n obsF

/-- C10: an `add_observations` batch with two items for the same
entity appends both content lists, in order, to the stored
observation sequence, but the returned mapping holds only the LAST
item's contents for that name (Python dict assignment overwrites),
and the batch commits. -/
theorem c10_add_observations_duplicate_name
    (st : DBState) (n : String) (c1 c2 : List String) (row : EntityRow)
    (hrow : findEntity st.current n = some row)
    (hc : CleanObs (splitObs row.observations ++ c1 ++ c2)) :
    ∃ st' row', add_observations st [⟨n, c1⟩, ⟨n, c2⟩]
        = (st', Except.ok [(n, c2)]) ∧
      findEntity st'.current n = some row' ∧
      splitObs row'.observations = splitObs row.observations ++ c1 ++ c2 ∧
      st'.committed = st'.current := by
  have h1 : CleanObs (splitObs row.observations ++ c1) := fun o ho =>
    hc o (List.mem_append_left _ ho)
  have hfind1 : findEntity
      (updateObservations st.current n
        (joinObs (splitObs row.observations ++ c1))) n
      = some ⟨row.name, row.entity_type,
          joinObs (splitObs row.observations ++ c1)⟩ := by
    rw [findEntity_updateObservations, hrow]
    rfl
  have hgo1 : addObservationsGo st.committed st.current [] [⟨n, c1⟩, ⟨n, c2⟩]
      = addObservationsGo st.committed
          (updateObservations st.current n
            (joinObs (splitObs row.observations ++ c1)))
          (dictSet [] n c1) [⟨n, c2⟩] :=
    addObservationsGo_cons_found st.committed st.current [] ⟨n, c1⟩ [⟨n, c2⟩]
      row hrow
  have hgo2 : addObservationsGo st.committed
      (updateObservations st.current n
        (joinObs (splitObs row.observations ++ c1)))
      (dictSet [] n c1) [⟨n, c2⟩]
      = addObservationsGo st.committed
          (updateObservations
            (updateObservations st.current n
              (joinObs (splitObs row.observations ++ c1)))
            n (joinObs (splitObs (joinObs (splitObs row.observations ++ c1)) ++ c2)))
          (dictSet (dictSet [] n c1) n c2) [] :=
    addObservationsGo_cons_found st.committed
      (updateObservations st.current n (joinObs (splitObs row.observations ++ c1)))
      (dictSet [] n c1) ⟨n, c2⟩ []
      ⟨row.name, row.entity_type, joinObs (splitObs row.observations ++ c1)⟩
      hfind1
  have hsplit1 : splitObs (joinObs (splitObs row.observations ++ c1))
      = splitObs row.observations ++ c1 := splitObs_joinObs _ h1
  have hdict : dictSet (dictSet [] n c1) n c2 = [(n, c2)] := by
    simp [dictSet]
  refine ⟨⟨updateObservations
      (updateObservations st.current n (joinObs (splitObs row.observations ++ c1)))
      n (joinObs (splitObs row.observations ++ c1 ++ c2)),
    updateObservations
      (updateObservations st.current n (joinObs (splitObs row.observations ++ c1)))
      n (joinObs (splitObs row.observations ++ c1 ++ c2))⟩,
    ⟨row.name, row.entity_type,
      joinObs (splitObs row.observations ++ c1 ++ c2)⟩, ?_, ?_, ?_, rfl⟩
  · rw [add_observations]
    show addObservationsGo st.committed st.current [] [⟨n, c1⟩, ⟨n, c2⟩] = _
    rw [hgo1, hgo2, hsplit1, hdict]
    rfl
  · show findEntity (updateObservations _ n _) n = _
    rw [findEntity_updateObservations, hfind1]
    rfl
  · show splitObs (joinObs (splitObs row.observations ++ c1 ++ c2)) = _
    exact splitObs_joinObs _ hc

theorem c10_add_observations_duplicate_name_witness :
    (findEntity obsLeakStart.current "a" = some ⟨"a", "t", ""⟩ ∧
      CleanObs (splitObs ("" : String) ++ ["x"] ++ ["y"])) ∧
    ∃ st' row', add_observations obsLeakStart [⟨"a", ["x"]⟩, ⟨"a", ["y"]⟩]
        = (st', Except.ok [("a", ["y"])]) ∧
      findEntity st'.current "a" = some row' ∧
      splitObs row'.observations = splitObs ("" : String) ++ ["x"] ++ ["y"] ∧
      st'.committed = st'.current :=
  ⟨⟨by decide, by decide⟩,
   c10_add_observations_duplicate_name obsLeakStart "a" ["x"] ["y"]
     ⟨"a", "t", ""⟩ (by decide) (by decide)⟩

end MemoryMCP
